import Mathlib

/-!
Verification of the artlinks-data normalization and reconciliation engine.

This file embeds, in Lean, the Python source under `scripts/`:
  * `merge_csv.py` (master-table merge: replace-on-merge, dedupe, sort),
  * `fetch_sketchboard_drinkdraw.py` (date/time extraction, classification),
  * `scrape_case.py`, `scrape_arch.py` (year inference, time ranges, classification),
  * `scrape_syzygy.py` (time ranges, recurrence expansion),
  * `scrape_minna.py` (classification),
and proves or refutes the specification claims about them.

Strings in the scraped data are ASCII; the embedded `lower`/`strip`/`split`
helpers implement Python's `str.lower`, `str.strip`, `str.split` on the ASCII
fragment that the repository's data exercises.
-/

namespace Artlinks

/-! ## Python string primitives -/

/-- Python whitespace (`str.split`/`str.strip` default set), ASCII fragment. -/
def pyIsSpace (c : Char) : Bool :=
  c == ' ' || c == '\t' || c == '\n' || c == '\r' || c == Char.ofNat 11 || c == Char.ofNat 12

/-- ASCII lowercasing of one character (Python `str.lower` on ASCII input). -/
def lowerChar (c : Char) : Char :=
  if 'A' ≤ c ∧ c ≤ 'Z' then Char.ofNat (c.toNat + 32) else c

/-- Python `s.lower()` (ASCII fragment). -/
def pyLower (s : String) : String := ⟨s.data.map lowerChar⟩

/-- Python `s.strip()`: drop leading and trailing whitespace. -/
def pyStrip (s : String) : String :=
  ⟨((s.data.dropWhile pyIsSpace).reverse.dropWhile pyIsSpace).reverse⟩

/-- Does the character list start with the given needle? (For `in` tests.) -/
def listStarts : List Char → List Char → Bool
  | [], _ => true
  | _ :: _, [] => false
  | a :: as, b :: bs => a == b && listStarts as bs

/-- Does the character list contain the needle as a contiguous run? -/
def listHas (n : List Char) : List Char → Bool
  | [] => listStarts n []
  | c :: cs => listStarts n (c :: cs) || listHas n cs

/-- Python `needle in hay` substring test. -/
def strHas (hay needle : String) : Bool := listHas needle.data hay.data

/-- Python `s.split()` (split on whitespace runs), on character lists.
`acc` holds the current in-progress word, reversed. -/
def splitWsAux : List Char → List Char → List (List Char)
  | acc, [] => if acc.isEmpty then [] else [acc.reverse]
  | acc, c :: cs =>
    if pyIsSpace c then
      (if acc.isEmpty then splitWsAux [] cs else acc.reverse :: splitWsAux [] cs)
    else splitWsAux (c :: acc) cs

/-- Join words with single spaces (Python `" ".join(ws)`). -/
def joinWords : List (List Char) → List Char
  | [] => []
  | [w] => w
  | w :: ws => w ++ ' ' :: joinWords ws

/-- Python `" ".join(text.split())`: collapse whitespace runs to single spaces. -/
def normSpace (s : String) : String := ⟨joinWords (splitWsAux [] s.data)⟩

/-! ## The canonical record (`merge_csv.py` HEADERS, one field per column) -/

/-- One CSV row of the master-table schema
`date, venue, title, category, event_type, start_time, end_time, price_text,
is_museum, museum_name, event_url, notes`. -/
structure Row where
  date : String
  venue : String
  title : String
  category : String
  event_type : String
  start_time : String
  end_time : String
  price_text : String
  is_museum : String
  museum_name : String
  event_url : String
  notes : String
deriving DecidableEq, Repr

/-! ## `merge_csv.py` -/

/-- `merge_csv.is_sketchboard_auto`: the source-tag test used by the merge,
`"auto-imported: sketchboard" in (row.get("notes","") or "").lower()`. -/
def isSketchboardAuto (r : Row) : Bool :=
  strHas (pyLower r.notes) "auto-imported: sketchboard"

/-- `s.lower().strip()` as used in `merge_csv.key`. -/
def lowStrip (s : String) : String := pyStrip (pyLower s)

/-- `merge_csv.key`: the dedupe key
`(date, venue.lower().strip(), title.lower().strip(), start_time.strip(), category.lower().strip())`. -/
def rowKey (r : Row) : List String :=
  [r.date, lowStrip r.venue, lowStrip r.title, pyStrip r.start_time, lowStrip r.category]

/-- The first-occurrence-per-key loop of `merge_csv.main` (`seen`/`uniq`). -/
def dedupeGo (seen : List (List String)) : List Row → List Row
  | [] => []
  | r :: rs =>
    if rowKey r ∈ seen then dedupeGo seen rs
    else r :: dedupeGo (rowKey r :: seen) rs

/-- Deduplication starting from an empty `seen` set. -/
def mergeDedupe (l : List Row) : List Row := dedupeGo [] l

/-- The `seen` set as it stands after `dedupeGo` has processed `l`. -/
def addAll (seen : List (List String)) : List Row → List (List String)
  | [] => seen
  | r :: rs =>
    if rowKey r ∈ seen then addAll seen rs else addAll (rowKey r :: seen) rs

/-- The sort key of `merge_csv.main`:
`(r.get("date",""), r.get("start_time",""), r.get("venue",""), r.get("title",""))`. -/
def rowSortKey (r : Row) : List String := [r.date, r.start_time, r.venue, r.title]

/-- Comparison used by `uniq.sort(key=...)` (lexicographic tuple of strings). -/
def rowLe (a b : Row) : Prop := rowSortKey a ≤ rowSortKey b

instance : DecidableRel rowLe :=
  fun a b => inferInstanceAs (Decidable (rowSortKey a ≤ rowSortKey b))

instance : IsTotal Row rowLe := ⟨fun a b => le_total (rowSortKey a) (rowSortKey b)⟩

instance : IsTrans Row rowLe := ⟨fun _ _ _ h₁ h₂ => le_trans h₁ h₂⟩

/-- Python's stable `list.sort` with the merge sort key (insertion sort with a
`≤` comparison is the unique stable sort, matching CPython's stable sort). -/
def sortRows (l : List Row) : List Row := List.insertionSort rowLe l

/-- The core of `merge_csv.main`: remove rows tagged as Sketchboard-auto from
the persisted table, append the fresh batch, dedupe, sort. -/
def mergeTables (base auto : List Row) : List Row :=
  sortRows (mergeDedupe ((base.filter fun r => !isSketchboardAuto r) ++ auto))

/-- Field normalization performed by `merge_csv.read_csv`:
`(row.get(h,"") or "").strip()` for every header. -/
def readNormalize (r : Row) : Row where
  date := pyStrip r.date
  venue := pyStrip r.venue
  title := pyStrip r.title
  category := pyStrip r.category
  event_type := pyStrip r.event_type
  start_time := pyStrip r.start_time
  end_time := pyStrip r.end_time
  price_text := pyStrip r.price_text
  is_museum := pyStrip r.is_museum
  museum_name := pyStrip r.museum_name
  event_url := pyStrip r.event_url
  notes := pyStrip r.notes

/-- `merge_csv.read_csv`: a missing file (`not p.exists()`) reads as the empty
record list; an existing file reads as its rows with each field stripped.
CSV byte-level decoding is the external tabular-store collaborator. -/
def readCsv : Option (List Row) → List Row
  | none => []
  | some rows => rows.map readNormalize

/-- `merge_csv.main` as a function of the two file states (master, fresh batch). -/
def mergeMain (baseFile autoFile : Option (List Row)) : List Row :=
  mergeTables (readCsv baseFile) (readCsv autoFile)

/-! ## `fetch_sketchboard_drinkdraw.py`: the row constructor (lines 230-243) -/

/-- The event dict built by `fetch_sketchboard_drinkdraw.scrape_url`; its
`notes` field is the f-string `f"Auto-imported from {url}"`. -/
def sketchboardRow (dateIso venue title category startT endT price href url : String) : Row where
  date := dateIso
  venue := venue
  title := title
  category := category
  event_type := ""
  start_time := startT
  end_time := endT
  price_text := price
  is_museum := "no"
  museum_name := ""
  event_url := href
  notes := "Auto-imported from " ++ url

/-! ## Proleptic Gregorian calendar (Python `datetime.date`) -/

/-- A calendar date. Python `datetime.date` only ever holds valid dates
(`1 ≤ month ≤ 12`, `1 ≤ day ≤ daysInMonth`); validity is tracked by
`Date.Valid` below. -/
structure Date where
  year : Nat
  month : Nat
  day : Nat
deriving DecidableEq, Repr

/-- Gregorian leap-year rule (Python `calendar.isleap`). -/
def isLeap (y : Nat) : Bool := (y % 4 == 0 && y % 100 != 0) || y % 400 == 0

/-- Number of days of month `m` of year `y`. -/
def daysInMonth (y m : Nat) : Nat :=
  if m = 2 then (if isLeap y then 29 else 28)
  else if m = 4 ∨ m = 6 ∨ m = 9 ∨ m = 11 then 30 else 31

/-- Days in year `y` strictly before month `m` (cumulative month table). -/
def daysBeforeMonth (y m : Nat) : Nat :=
  (match m with
   | 1 => 0 | 2 => 31 | 3 => 59 | 4 => 90 | 5 => 120 | 6 => 151 | 7 => 181
   | 8 => 212 | 9 => 243 | 10 => 273 | 11 => 304 | 12 => 334 | _ => 0)
  + (if 2 < m ∧ isLeap y = true then 1 else 0)

/-- Days strictly before year `y` in the proleptic Gregorian calendar. -/
def daysBeforeYear (y : Nat) : Nat :=
  365 * (y - 1) + (y - 1) / 4 - (y - 1) / 100 + (y - 1) / 400

/-- Python `date.toordinal`: day number with `0001-01-01 = 1`. -/
def toOrdinal (d : Date) : Nat :=
  daysBeforeYear d.year + daysBeforeMonth d.year d.month + d.day

/-- Python `date.weekday()`: Monday = 0, ..., Sunday = 6
(`0001-01-01` is a Monday). -/
def pyWeekday (d : Date) : Nat := (toOrdinal d + 6) % 7

/-- The dates representable by Python `datetime.date` (year bound aside). -/
def Date.Valid (d : Date) : Prop :=
  1 ≤ d.year ∧ 1 ≤ d.month ∧ d.month ≤ 12 ∧ 1 ≤ d.day ∧ d.day ≤ daysInMonth d.year d.month

instance (d : Date) : Decidable d.Valid := by
  unfold Date.Valid; infer_instance

/-- The next calendar day. -/
def succDay (d : Date) : Date :=
  if d.day < daysInMonth d.year d.month then ⟨d.year, d.month, d.day + 1⟩
  else if d.month < 12 then ⟨d.year, d.month + 1, 1⟩
  else ⟨d.year + 1, 1, 1⟩

/-- Python `d + timedelta(days=k)` for `k ≥ 0`. -/
def addDays (d : Date) : Nat → Date
  | 0 => d
  | k + 1 => addDays (succDay d) k

/-- Python date comparison `a < b` (lexicographic on year, month, day; on valid
dates this coincides with comparing `toordinal`). -/
def dateLt (a b : Date) : Prop :=
  a.year < b.year ∨ (a.year = b.year ∧
    (a.month < b.month ∨ (a.month = b.month ∧ a.day < b.day)))

instance : ∀ a b : Date, Decidable (dateLt a b) := fun a b => by
  unfold dateLt; infer_instance

/-- Python date comparison `a <= b`. -/
def dateLe (a b : Date) : Prop := dateLt a b ∨ a = b

instance : ∀ a b : Date, Decidable (dateLe a b) := fun a b => by
  unfold dateLe; infer_instance

/-! ## Hand-compiled token scanners (for the `re.search` calls of
`scrape_syzygy.py`, over ASCII text) -/

/-- Python regex `\w` on ASCII text. -/
def wordChar (c : Char) : Bool := c.isAlphanum || c == '_'

/-- A `\b` word boundary holds before the current position given the previous
character (`none` at the start of the text) and a word character following. -/
def boundaryB : Option Char → Bool
  | none => true
  | some c => !wordChar c

/-- A `\b` word boundary holds after a word character when the rest of the text
starts with a non-word character (or is empty). -/
def headNonWord : List Char → Bool
  | [] => true
  | c :: _ => !wordChar c

/-- Try the alternatives of a regex alternation `(tok1|tok2|...)` in written
order at the current position; the alternatives used here are pairwise
prefix-incompatible, so at most one can match. Returns the mapped value and
the rest of the text. -/
def matchTokenTable : List (List Char × Nat) → List Char → Option (Nat × List Char)
  | [], _ => none
  | (tok, v) :: tbl, l =>
    if listStarts tok l then some (v, l.drop tok.length) else matchTokenTable tbl l

/-- One position of `re.search(r"\b(tok1|...)\b", text)`. -/
def scanTokenAt (tbl : List (List Char × Nat)) (prev : Option Char) (l : List Char) :
    Option Nat :=
  if boundaryB prev then
    match matchTokenTable tbl l with
    | some (v, rest) => if headNonWord rest then some v else none
    | none => none
  else none

/-- `re.search(r"\b(tok1|...)\b", text)`: leftmost match wins. -/
def scanToken (tbl : List (List Char × Nat)) : Option Char → List Char → Option Nat
  | prev, [] => scanTokenAt tbl prev []
  | prev, c :: cs =>
    match scanTokenAt tbl prev (c :: cs) with
    | some v => some v
    | none => scanToken tbl (some c) cs

/-- `scrape_syzygy.WEEKDAY_MAP`, in the alternation order of its regexes. -/
def wdTable : List (List Char × Nat) :=
  [("monday".data, 0), ("tuesday".data, 1), ("wednesday".data, 2), ("thursday".data, 3),
   ("friday".data, 4), ("saturday".data, 5), ("sunday".data, 6)]

/-- `scrape_syzygy.ORDINAL_MAP`, in the alternation order
`1st|2nd|3rd|4th|first|second|third|fourth`. -/
def ordTable : List (List Char × Nat) :=
  [("1st".data, 1), ("2nd".data, 2), ("3rd".data, 3), ("4th".data, 4),
   ("first".data, 1), ("second".data, 2), ("third".data, 3), ("fourth".data, 4)]

/-- One position of `re.search(r"\bevery\s+(monday|...|sunday)\b", txt)`. -/
def scanEveryWdAt (prev : Option Char) (l : List Char) : Option Nat :=
  if boundaryB prev ∧ listStarts "every".data l then
    let r := l.drop 5
    let ws := r.takeWhile pyIsSpace
    if ws.isEmpty then none
    else
      match matchTokenTable wdTable (r.drop ws.length) with
      | some (v, rest) => if headNonWord rest then some v else none
      | none => none
  else none

/-- `re.search(r"\bevery\s+(monday|...|sunday)\b", txt)`. -/
def scanEveryWd : Option Char → List Char → Option Nat
  | prev, [] => scanEveryWdAt prev []
  | prev, c :: cs =>
    match scanEveryWdAt prev (c :: cs) with
    | some v => some v
    | none => scanEveryWd (some c) cs

/-! ## `scrape_syzygy.py`: recurrence expansion -/

/-- `scrape_syzygy.next_weekday_on_or_after`:
`d + timedelta((weekday - d.weekday()) % 7)`. -/
def nextWeekdayOnOrAfter (d : Date) (weekday : Nat) : Date :=
  addDays d (((weekday : Int) - (pyWeekday d : Int)) % 7).toNat

/-- `scrape_syzygy.nth_weekday_of_month`: `first_w`, the first weekday-of-month
scanned forward from day 1, plus `7*(n-1)` days gives `candidate`, re-validated
to lie in the month. -/
def nthWeekdayOfMonth (year month weekday n : Nat) : Option Date :=
  if (addDays (nextWeekdayOnOrAfter ⟨year, month, 1⟩ weekday) (7 * (n - 1))).month ≠ month
  then none
  else some (addDays (nextWeekdayOnOrAfter ⟨year, month, 1⟩ weekday) (7 * (n - 1)))

/-- The month loop of the ordinal branch of `expand_rule_to_dates`
(`cur = date(ws.year, ws.month, 1); while cur < window_end: ...`).
The loop is driven by an explicit iteration count so that it is structurally
recursive; `expandOrdinal` below passes the exact number of months from the
loop entry through the end month, which is an upper bound on the iterations
the `while` guard admits, so the guard — not the count — ends the loop. -/
def expandOrdinalMonths (n wd : Nat) (windowStart windowEnd : Date) :
    Nat → Nat → Nat → List Date
  | _, _, 0 => []
  | y, m, fuel + 1 =>
    if dateLt ⟨y, m, 1⟩ windowEnd then
      (match nthWeekdayOfMonth y m wd n with
       | some cand =>
         if dateLe windowStart cand ∧ dateLt cand windowEnd then [cand] else []
       | none => []) ++
      (if m = 12 then expandOrdinalMonths n wd windowStart windowEnd (y + 1) 1 fuel
       else expandOrdinalMonths n wd windowStart windowEnd y (m + 1) fuel)
    else []

/-- Ordinal branch of `expand_rule_to_dates`, after the rule text has resolved
to an ordinal `n` and a weekday `wd`. -/
def expandOrdinal (n wd : Nat) (windowStart windowEnd : Date) : List Date :=
  expandOrdinalMonths n wd windowStart windowEnd windowStart.year windowStart.month
    ((windowEnd.year * 12 + windowEnd.month + 1) -
      (windowStart.year * 12 + windowStart.month))

/-- The weekly loop of the "every weekday" branch
(`d = first; while d < window_end: out.append(d); d += 7`), again driven by an
iteration count that the entry point chooses large enough that the `while`
guard is what ends the loop on every Python-representable (valid) date. -/
def expandEveryLoop (windowEnd : Date) : Date → Nat → List Date
  | _, 0 => []
  | d, fuel + 1 =>
    if dateLt d windowEnd then d :: expandEveryLoop windowEnd (addDays d 7) fuel
    else []

/-- "Every `<weekday>`" branch of `expand_rule_to_dates`. -/
def expandEveryWeekday (wd : Nat) (windowStart windowEnd : Date) : List Date :=
  expandEveryLoop windowEnd (nextWeekdayOnOrAfter windowStart wd)
    (toOrdinal windowEnd + 1 - toOrdinal (nextWeekdayOnOrAfter windowStart wd))

/-- The tail of `expand_rule_to_dates`: search for an ordinal and a weekday;
expand monthly if both are found, else return `[]`. -/
def expandOrdinalBranch (txt : List Char) (windowStart windowEnd : Date) : List Date :=
  match scanToken ordTable none txt, scanToken wdTable none txt with
  | some n, some wd => expandOrdinal n wd windowStart windowEnd
  | _, _ => []

/-- `scrape_syzygy.expand_rule_to_dates`. -/
def expandRuleToDates (ruleText : String) (windowStart windowEnd : Date) : List Date :=
  let txt := (pyLower (pyStrip ruleText)).data
  if listHas "every other".data txt then []
  else
    match scanEveryWd none txt with
    | some wd =>
      if listHas "month".data txt = false ∧ scanToken ordTable none txt = none then
        expandEveryWeekday wd windowStart windowEnd
      else expandOrdinalBranch txt windowStart windowEnd
    | none => expandOrdinalBranch txt windowStart windowEnd

/-! ## Decimal rendering (Python `f"{n:04d}"`, `f"{n:02d}"`; all producers in
this code base format year/month/day/hour/minute values within 4 resp. 2
digits, where the fixed-width rendering coincides with Python's) -/

/-- The decimal digit character for `n < 10`. -/
def digitOf (n : Nat) : Char := Char.ofNat (48 + n)

/-- `f"{n:04d}"` for `n ≤ 9999`. -/
def pad4 (n : Nat) : List Char :=
  [digitOf (n / 1000 % 10), digitOf (n / 100 % 10), digitOf (n / 10 % 10), digitOf (n % 10)]

/-- `f"{n:02d}"` for `n ≤ 99`. -/
def pad2 (n : Nat) : List Char := [digitOf (n / 10 % 10), digitOf (n % 10)]

/-- `fetch_sketchboard_drinkdraw.normalize_iso`: `f"{y:04d}-{m:02d}-{d:02d}"`. -/
def normalizeIso (y m d : Nat) : String := ⟨pad4 y ++ '-' :: pad2 m ++ '-' :: pad2 d⟩

/-- Python `date.isoformat()`. -/
def isoFormat (d : Date) : String := normalizeIso d.year d.month d.day

/-- Numeric value of a digit string (`int()` on an all-digit token). -/
def digitsToNat (l : List Char) : Nat := l.foldl (fun a c => a * 10 + (c.toNat - 48)) 0

/-- Python `int(token)` on a stripped token: succeeds on nonempty all-digit
input; `none` models the `ValueError` raised otherwise. -/
def decNatOpt (l : List Char) : Option Nat :=
  if l.isEmpty then none
  else if l.all Char.isDigit then some (digitsToNat l) else none

/-- Python `s.endswith(suffix)`. -/
def listEnds (suffix l : List Char) : Bool := listStarts suffix.reverse l.reverse

/-- Association-list lookup with exact key equality (Python `dict.get`). -/
def assocLookup : List (List Char × Nat) → List Char → Option Nat
  | [], _ => none
  | (k, v) :: t, s => if k == s then some v else assocLookup t s

/-! ## Year inference (claim C3) -/

/-- The year-inference step of grammar 4 ("Month DD", no year) of
`fetch_sketchboard_drinkdraw.parse_date_any`: assume the current year, then
`if (today - guess).days > 270: yr += 1`.  `(today - guess).days` is the
difference of the two `toordinal` values; Python's `date(yr, mm, day)` also
validates the guess, which holds at the theorem call sites. -/
def inferYearRollForward (today : Date) (mm dd : Nat) : Nat :=
  if (toOrdinal today : Int) - (toOrdinal ⟨today.year, mm, dd⟩ : Int) > 270 then today.year + 1
  else today.year

/-- `scrape_case.MONTHS` (three-letter keys). -/
def caseMonths : List (List Char × Nat) :=
  [("jan".data, 1), ("feb".data, 2), ("mar".data, 3), ("apr".data, 4), ("may".data, 5),
   ("jun".data, 6), ("jul".data, 7), ("aug".data, 8), ("sep".data, 9), ("oct".data, 10),
   ("nov".data, 11), ("dec".data, 12)]

/-- `scrape_case.to_iso_date`: current year, but
`if d < today - timedelta(days=7): d = date(y + 1, m, day)` — a 7-day
past-horizon.  `none` models the `KeyError` on an unknown month key. -/
def caseToIsoDate (mon : String) (day : Nat) (today : Date) : Option String :=
  match assocLookup caseMonths ((pyLower mon).data.take 3) with
  | none => none
  | some m =>
    if (toOrdinal ⟨today.year, m, day⟩ : Int) < (toOrdinal today : Int) - 7 then
      some (isoFormat ⟨today.year + 1, m, day⟩)
    else some (isoFormat ⟨today.year, m, day⟩)

/-- `scrape_arch._infer_year`: roll the year forward when
`month < max(1, today.month - 2)` — a month-difference heuristic. -/
def archInferYear (month day : Nat) (today : Date) : Nat :=
  if month < max 1 (today.month - 2) then today.year + 1 else today.year

/-! ## `fetch_sketchboard_drinkdraw.parse_date_any`: hand-compiled scanners
for its four grammars, in source order -/

/-- One position of `re.search(r"\b(20\d{2})-(\d{2})-(\d{2})\b", t)`. -/
def matchIsoAt (prev : Option Char) (l : List Char) : Option (Nat × Nat × Nat) :=
  if boundaryB prev then
    match l with
    | c1 :: c2 :: c3 :: c4 :: h1 :: m1 :: m2 :: h2 :: d1 :: d2 :: rest =>
      if c1 == '2' && c2 == '0' && c3.isDigit && c4.isDigit && h1 == '-' &&
         m1.isDigit && m2.isDigit && h2 == '-' && d1.isDigit && d2.isDigit &&
         headNonWord rest then
        some (2000 + 10 * (c3.toNat - 48) + (c4.toNat - 48),
              (10 * (m1.toNat - 48) + (m2.toNat - 48),
               10 * (d1.toNat - 48) + (d2.toNat - 48)))
      else none
    | _ => none
  else none

/-- `re.search` scan for grammar 1 (ISO). -/
def scanIso : Option Char → List Char → Option (Nat × Nat × Nat)
  | prev, [] => matchIsoAt prev []
  | prev, c :: cs =>
    match matchIsoAt prev (c :: cs) with
    | some r => some r
    | none => scanIso (some c) cs

/-- The weekday alternation `Mon|Tue|Wed|Thu|Fri|Sat|Sun` (case-sensitive,
pairwise prefix-incompatible). -/
def wdPrefixes : List (List Char) :=
  ["Mon".data, "Tue".data, "Wed".data, "Thu".data, "Fri".data, "Sat".data, "Sun".data]

/-- Try literal alternatives in order; return the rest after the first match. -/
def matchAnyStart : List (List Char) → List Char → Option (List Char)
  | [], _ => none
  | p :: ps, l => if listStarts p l then some (l.drop p.length) else matchAnyStart ps l

/-- Shared tail `([A-Za-z]+)\s+(\d{1,2}),\s+(20\d{2})\b` of grammars 2 and 3:
month-name capture, day (one or two digits directly before the comma), and a
`20xx` year at a trailing word boundary. -/
def matchMonDayYear (l : List Char) : Option (List Char × Nat × Nat) :=
  let monTok := l.takeWhile Char.isAlpha
  if monTok.isEmpty then none
  else
    let r5 := l.drop monTok.length
    let sp2 := r5.takeWhile pyIsSpace
    if sp2.isEmpty then none
    else
      let r6 := r5.drop sp2.length
      let dayTok := r6.takeWhile Char.isDigit
      if dayTok.isEmpty || decide (2 < dayTok.length) then none
      else
        match r6.drop dayTok.length with
        | ',' :: r7 =>
          let sp3 := r7.takeWhile pyIsSpace
          if sp3.isEmpty then none
          else
            match r7.drop sp3.length with
            | y1 :: y2 :: y3 :: y4 :: rest =>
              if y1 == '2' && y2 == '0' && y3.isDigit && y4.isDigit && headNonWord rest then
                some (monTok, digitsToNat dayTok, 2000 + 10 * (y3.toNat - 48) + (y4.toNat - 48))
              else none
            | _ => none
        | _ => none

/-- One position of grammar 2
`\b(?:Mon|...|Sun)[a-z]*,\s+([A-Za-z]+)\s+(\d{1,2}),\s+(20\d{2})\b`. -/
def matchWdyAt (prev : Option Char) (l : List Char) : Option (List Char × Nat × Nat) :=
  if boundaryB prev then
    match matchAnyStart wdPrefixes l with
    | none => none
    | some r1 =>
      match r1.dropWhile Char.isLower with
      | ',' :: r3 =>
        let sp1 := r3.takeWhile pyIsSpace
        if sp1.isEmpty then none else matchMonDayYear (r3.drop sp1.length)
      | _ => none
  else none

/-- `re.search` scan for grammar 2. -/
def scanWdy : Option Char → List Char → Option (List Char × Nat × Nat)
  | prev, [] => matchWdyAt prev []
  | prev, c :: cs =>
    match matchWdyAt prev (c :: cs) with
    | some r => some r
    | none => scanWdy (some c) cs

/-- One position of grammar 3 `\b([A-Za-z]+)\s+(\d{1,2}),\s+(20\d{2})\b`. -/
def matchMdyAt (prev : Option Char) (l : List Char) : Option (List Char × Nat × Nat) :=
  if boundaryB prev then matchMonDayYear l else none

/-- `re.search` scan for grammar 3. -/
def scanMdy : Option Char → List Char → Option (List Char × Nat × Nat)
  | prev, [] => matchMdyAt prev []
  | prev, c :: cs =>
    match matchMdyAt prev (c :: cs) with
    | some r => some r
    | none => scanMdy (some c) cs

/-- One position of grammar 4 `\b([A-Za-z]+)\s+(\d{1,2})\b`. -/
def matchMdAt (prev : Option Char) (l : List Char) : Option (List Char × Nat) :=
  if boundaryB prev then
    let monTok := l.takeWhile Char.isAlpha
    if monTok.isEmpty then none
    else
      let r := l.drop monTok.length
      let sp := r.takeWhile pyIsSpace
      if sp.isEmpty then none
      else
        let r2 := r.drop sp.length
        let dayTok := r2.takeWhile Char.isDigit
        if dayTok.isEmpty || decide (2 < dayTok.length) then none
        else if headNonWord (r2.drop dayTok.length) then some (monTok, digitsToNat dayTok)
        else none
  else none

/-- `re.search` scan for grammar 4. -/
def scanMd : Option Char → List Char → Option (List Char × Nat)
  | prev, [] => matchMdAt prev []
  | prev, c :: cs =>
    match matchMdAt prev (c :: cs) with
    | some r => some r
    | none => scanMd (some c) cs

/-- `fetch_sketchboard_drinkdraw.MONTHS` (full lowercase names). -/
def ddMonths : List (List Char × Nat) :=
  [("january".data, 1), ("february".data, 2), ("march".data, 3), ("april".data, 4),
   ("may".data, 5), ("june".data, 6), ("july".data, 7), ("august".data, 8),
   ("september".data, 9), ("october".data, 10), ("november".data, 11), ("december".data, 12)]

/-- `fetch_sketchboard_drinkdraw.MONTHS_ABBR` (first three letters). -/
def ddMonthsAbbr : List (List Char × Nat) :=
  [("jan".data, 1), ("feb".data, 2), ("mar".data, 3), ("apr".data, 4), ("may".data, 5),
   ("jun".data, 6), ("jul".data, 7), ("aug".data, 8), ("sep".data, 9), ("oct".data, 10),
   ("nov".data, 11), ("dec".data, 12)]

/-- `MONTHS.get(mon) or MONTHS_ABBR.get(mon[:3])` on the lowercased capture. -/
def ddMonthResolve (mon : List Char) : Option Nat :=
  match assocLookup ddMonths mon with
  | some m => some m
  | none => assocLookup ddMonthsAbbr (mon.take 3)

/-- Grammar 4 of `parse_date_any` ("Month DD", no year): current year with the
270-day roll-forward of `inferYearRollForward`; an unresolvable month name
falls through to `return ""`. -/
def parseDateAny4 (today : Date) (t : List Char) : String :=
  match scanMd none t with
  | some (mon, day) =>
    match ddMonthResolve (mon.map lowerChar) with
    | some mm => normalizeIso (inferYearRollForward today mm day) mm day
    | none => ""
  | none => ""

/-- Grammar 3 of `parse_date_any` ("Month DD, YYYY"); an unresolvable month
name falls through to grammar 4. -/
def parseDateAny3 (today : Date) (t : List Char) : String :=
  match scanMdy none t with
  | some (mon, day, yr) =>
    match ddMonthResolve (mon.map lowerChar) with
    | some mm => normalizeIso yr mm day
    | none => parseDateAny4 today t
  | none => parseDateAny4 today t

/-- `fetch_sketchboard_drinkdraw.parse_date_any`: whitespace-normalize, then
try the four grammars in order (ISO; weekday + "Month DD, YYYY";
"Month DD, YYYY"; "Month DD"), returning at the first success and `""` when
none matches. -/
def parseDateAny (today : Date) (text : String) : String :=
  let t := (normSpace text).data
  match scanIso none t with
  | some (y, m, d) => normalizeIso y m d
  | none =>
    match scanWdy none t with
    | some (mon, day, yr) =>
      match ddMonthResolve (mon.map lowerChar) with
      | some mm => normalizeIso yr mm day
      | none => parseDateAny3 today t
    | none => parseDateAny3 today t

/-! ## `fetch_sketchboard_drinkdraw.parse_time_range_any` / `to_24h` -/

/-- `fetch_sketchboard_drinkdraw.to_24h` on the parsed hour/minute and the
meridiem capture (lowercased before comparison, as in the source). -/
def to24hStr (h m : Nat) (ap : List Char) : String :=
  let apl := ap.map lowerChar
  let h1 := if apl == "pm".data ∧ h ≠ 12 then h + 12 else h
  let h2 := if apl == "am".data ∧ h1 = 12 then 0 else h1
  ⟨pad2 h2 ++ ':' :: pad2 m⟩

/-- The `[–-]` separator class (en dash or hyphen). -/
def isRangeDash (c : Char) : Bool := c == '–' || c == '-'

/-- One position of `\b(\d{1,2}:\d{2})\s*[–-]\s*(\d{1,2}:\d{2})\b`.
The groups are returned verbatim (the source does not re-format them). -/
def match24At (prev : Option Char) (l : List Char) : Option (String × String) :=
  if boundaryB prev then
    let h1 := l.takeWhile Char.isDigit
    if h1.isEmpty || decide (2 < h1.length) then none
    else
      match l.drop h1.length with
      | ':' :: r1 =>
        match r1 with
        | a :: b :: r2 =>
          if a.isDigit && b.isDigit then
            let r3 := r2.dropWhile pyIsSpace
            match r3 with
            | dsh :: r4 =>
              if isRangeDash dsh then
                let r5 := r4.dropWhile pyIsSpace
                let h2 := r5.takeWhile Char.isDigit
                if h2.isEmpty || decide (2 < h2.length) then none
                else
                  match r5.drop h2.length with
                  | ':' :: c :: d :: r6 =>
                    if c.isDigit && d.isDigit && headNonWord r6 then
                      some (⟨h1 ++ ':' :: [a, b]⟩, ⟨h2 ++ ':' :: [c, d]⟩)
                    else none
                  | _ => none
              else none
            | [] => none
          else none
        | _ => none
      | _ => none
  else none

/-- `re.search` scan for the 24-hour range grammar. -/
def scan24 : Option Char → List Char → Option (String × String)
  | prev, [] => match24At prev []
  | prev, c :: cs =>
    match match24At prev (c :: cs) with
    | some r => some r
    | none => scan24 (some c) cs

/-- `[AP]M` with `re.I`: returns the captured two characters. -/
def matchMeridiem : List Char → Option (List Char × List Char)
  | a :: b :: rest =>
    if (a == 'a' || a == 'A' || a == 'p' || a == 'P') && (b == 'm' || b == 'M') then
      some ([a, b], rest)
    else none
  | _ => none

/-- One position of
`\b(\d{1,2}:\d{2})\s*([AP]M)\s*[–-]?\s*(\d{1,2}:\d{2})\s*([AP]M)\b` (re.I). -/
def match12At (prev : Option Char) (l : List Char) :
    Option (Nat × Nat × List Char × Nat × Nat × List Char) :=
  if boundaryB prev then
    let h1 := l.takeWhile Char.isDigit
    if h1.isEmpty || decide (2 < h1.length) then none
    else
      match l.drop h1.length with
      | ':' :: a :: b :: r2 =>
        if a.isDigit && b.isDigit then
          match matchMeridiem (r2.dropWhile pyIsSpace) with
          | none => none
          | some (ap1, r3) =>
            let r4 := r3.dropWhile pyIsSpace
            let r5 := match r4 with
              | c :: r5' => if isRangeDash c then r5' else r4
              | [] => r4
            let r6 := r5.dropWhile pyIsSpace
            let h2 := r6.takeWhile Char.isDigit
            if h2.isEmpty || decide (2 < h2.length) then none
            else
              match r6.drop h2.length with
              | ':' :: c :: d :: r7 =>
                if c.isDigit && d.isDigit then
                  match matchMeridiem (r7.dropWhile pyIsSpace) with
                  | none => none
                  | some (ap2, r8) =>
                    if headNonWord r8 then
                      some (digitsToNat h1, 10 * (a.toNat - 48) + (b.toNat - 48), ap1,
                        digitsToNat h2, 10 * (c.toNat - 48) + (d.toNat - 48), ap2)
                    else none
                else none
              | _ => none
        else none
      | _ => none
  else none

/-- `re.search` scan for the 12-hour range grammar. -/
def scan12 : Option Char → List Char → Option (Nat × Nat × List Char × Nat × Nat × List Char)
  | prev, [] => match12At prev []
  | prev, c :: cs =>
    match match12At prev (c :: cs) with
    | some r => some r
    | none => scan12 (some c) cs

/-- `fetch_sketchboard_drinkdraw.parse_time_range_any`: 24-hour ranges first
(groups returned verbatim), then explicit double-meridiem 12-hour ranges via
`to_24h`; `("","")` when neither grammar matches. -/
def parseTimeRangeAny (text : String) : String × String :=
  let t := (normSpace text).data
  match scan24 none t with
  | some (s, e) => (s, e)
  | none =>
    match scan12 none t with
    | some (h1, m1, ap1, h2, m2, ap2) => (to24hStr h1 m1 ap1, to24hStr h2 m2 ap2)
    | none => ("", "")

/-! ## `scrape_arch._parse_time_token` / `_parse_time_range` -/

/-- List-level `pyStrip`. -/
def pyStripL (l : List Char) : List Char :=
  ((l.dropWhile pyIsSpace).reverse.dropWhile pyIsSpace).reverse

/-- List-level `normSpace` (`scrape_arch._clean` collapses whitespace runs and
strips, which coincides with `" ".join(s.split())`). -/
def normSpaceL (l : List Char) : List Char := joinWords (splitWsAux [] l)

/-- `scrape_arch._parse_time_token`: strip an explicit trailing meridiem, fall
back to the hint, parse `hh[:mm]`, and convert to 24-hour.  Returns
`(hour24, minute, meridiem_used)`; `none` models the `ValueError` that
`int()` raises on a non-numeric token. -/
def archParseTimeToken (token : List Char) (hint : Option (List Char)) :
    Option (Nat × Nat × List Char) :=
  let t0 := (normSpaceL token).map lowerChar
  let mer : Option (List Char) :=
    if listEnds "am".data t0 then some "am".data
    else if listEnds "pm".data t0 then some "pm".data
    else none
  let t1 := match mer with
    | some _ => t0.take (t0.length - 2)
    | none => t0
  let m := match mer with
    | some x => some x
    | none => hint
  let hmPair : Option (Nat × Nat) :=
    if t1.contains ':' then
      match decNatOpt (t1.takeWhile (fun c => c != ':')),
          decNatOpt ((t1.dropWhile (fun c => c != ':')).drop 1) with
      | some hh, some mm => some (hh, mm)
      | _, _ => none
    else
      match decNatOpt t1 with
      | some hh => some (hh, 0)
      | none => none
  match hmPair with
  | none => none
  | some (hh, mm) =>
    let hh1 := if m = some "am".data ∧ hh = 12 then 0 else hh
    let hh2 := if m = some "pm".data ∧ hh1 ≠ 12 then hh1 + 12 else hh1
    some (hh2, mm, m.getD [])

/-- `scrape_arch._parse_time_range`: clean and lowercase, require a `-`
(ASCII hyphen), split once, parse the end token first and give up (`none`)
when its meridiem cannot be determined, then parse the start token with the
end meridiem as hint. -/
def archParseTimeRange (timesText : String) : Option (String × String) :=
  let t := (normSpaceL timesText.data).map lowerChar
  if t.contains '-' then
    let startRaw := pyStripL (t.takeWhile (fun c => c != '-'))
    let endRaw := pyStripL ((t.dropWhile (fun c => c != '-')).drop 1)
    match archParseTimeToken endRaw none with
    | none => none
    | some (eh, em, endMer) =>
      if endMer.isEmpty then none
      else
        match archParseTimeToken startRaw (some endMer) with
        | none => none
        | some (sh, sm, _) =>
          some (⟨pad2 sh ++ ':' :: pad2 sm⟩, ⟨pad2 eh ++ ':' :: pad2 em⟩)
  else none

/-! ## `scrape_syzygy.parse_time_range` -/

/-- The hour/minute conversion block of `scrape_syzygy.parse_time_range`
("assume both times share the same am/pm marker"): under `pm`, add 12 to every
written hour other than 12; under `am`, send a written 12 to 0. -/
def syzygyTo24Pair (sh sm eh em : Nat) (ap : List Char) : String × String :=
  if ap == "pm".data then
    let sh1 := if sh ≠ 12 then sh + 12 else sh
    let eh1 := if eh ≠ 12 then eh + 12 else eh
    (⟨pad2 sh1 ++ ':' :: pad2 sm⟩, ⟨pad2 eh1 ++ ':' :: pad2 em⟩)
  else
    let sh1 := if sh = 12 then 0 else sh
    let eh1 := if eh = 12 then 0 else eh
    (⟨pad2 sh1 ++ ':' :: pad2 sm⟩, ⟨pad2 eh1 ++ ':' :: pad2 em⟩)

/-- Optional `(?::(\d{2}))?` minutes group: greedy, so the with-minutes
alternative is tried first. -/
def matchOptMinutes (l : List Char) : Option Nat × List Char :=
  match l with
  | ':' :: a :: b :: rest =>
    if a.isDigit && b.isDigit then (some (10 * (a.toNat - 48) + (b.toNat - 48)), rest)
    else (none, l)
  | _ => (none, l)

/-- One position of
`\b(\d{1,2})(?::(\d{2}))?-(\d{1,2})(?::(\d{2}))?(am|pm)\b` on the lowercased,
space-free text.  The optional minute groups backtrack to "absent" when the
with-minutes reading cannot complete the match. -/
def matchSyzygyAt (prev : Option Char) (l : List Char) :
    Option (Nat × Option Nat × Nat × Option Nat × List Char) :=
  if boundaryB prev then
    let h1 := l.takeWhile Char.isDigit
    if h1.isEmpty || decide (2 < h1.length) then none
    else
      let r1 := l.drop h1.length
      let tryRest : Option Nat → List Char → Option (Nat × Option Nat × Nat × Option Nat × List Char) :=
        fun sm r2 =>
          match r2 with
          | '-' :: r3 =>
            let h2 := r3.takeWhile Char.isDigit
            if h2.isEmpty || decide (2 < h2.length) then none
            else
              let r4 := r3.drop h2.length
              let tryEnd : Option Nat → List Char →
                  Option (Nat × Option Nat × Nat × Option Nat × List Char) :=
                fun em r5 =>
                  if listStarts "am".data r5 then
                    if headNonWord (r5.drop 2) then
                      some (digitsToNat h1, sm, digitsToNat h2, em, "am".data)
                    else none
                  else if listStarts "pm".data r5 then
                    if headNonWord (r5.drop 2) then
                      some (digitsToNat h1, sm, digitsToNat h2, em, "pm".data)
                    else none
                  else none
              match matchOptMinutes r4 with
              | (some em, r5) =>
                match tryEnd (some em) r5 with
                | some res => some res
                | none => tryEnd none r4
              | (none, _) => tryEnd none r4
          | _ => none
      match matchOptMinutes r1 with
      | (some sm, r2) =>
        match tryRest (some sm) r2 with
        | some res => some res
        | none => tryRest none r1
      | (none, _) => tryRest none r1
  else none

/-- `re.search` scan for the syzygy time-range grammar. -/
def scanSyzygy : Option Char → List Char → Option (Nat × Option Nat × Nat × Option Nat × List Char)
  | prev, [] => matchSyzygyAt prev []
  | prev, c :: cs =>
    match matchSyzygyAt prev (c :: cs) with
    | some r => some r
    | none => scanSyzygy (some c) cs

/-- `scrape_syzygy.parse_time_range`: lowercase, remove spaces, match the
single-trailing-meridiem range grammar, and convert both ends with the shared
marker; `("","")` when the grammar does not match. -/
def syzygyParseTimeRange (text : String) : String × String :=
  let t := (pyLower text).data.filter (fun c => c != ' ')
  match scanSyzygy none t with
  | some (sh, sm, eh, em, ap) => syzygyTo24Pair sh (sm.getD 0) eh (em.getD 0) ap
  | none => ("", "")

/-- Hour field of an `"HH:MM"` string (for stating claim C6). -/
def hourOf (s : String) : Nat := digitsToNat (s.data.takeWhile Char.isDigit)

/-! ## Classifiers (claim C7) -/

/-- `fetch_sketchboard_drinkdraw.classify_event` figure-drawing keyword set. -/
def figureTerms : List String :=
  ["figure drawing", "life drawing", "figure session", "model session",
   "open studio (figure)", "open studio figure", "gesture drawing"]

/-- `fetch_sketchboard_drinkdraw.classify_event`: returns
`(category, venue, price_text)` for the Figure Drawing or Drink & Draw
buckets, and `None` ("ignore") when neither matches. -/
def classifyEvent (title blockText : String) : Option (String × String × String) :=
  let tl := pyLower (pyStrip title)
  let bl := pyLower (pyStrip blockText)
  if (figureTerms.any fun term => strHas tl term || strHas bl term) ||
      (strHas tl "figure" && strHas tl "drawing") then
    some ("Figure Drawing", "Sketchboard (Figure)", "")
  else if (strHas tl "drink" && strHas tl "draw") || (strHas bl "drink" && strHas bl "draw") ||
      strHas tl "madrone" || strHas bl "madrone" then
    some ("Drink & Draw", "Sketchboard @ Madrone Art Bar",
      "$15 cash only (per Sketchboard schedule)")
  else none

/-- `scrape_case.guess_category`: keyword precedence with fallback
`"Workshop"`. -/
def caseGuessCategory (title : String) : String :=
  let t := pyLower title
  if strHas t "figure" then "Figure Drawing"
  else if strHas t "drink" && strHas t "draw" then "Drink & Draw"
  else if strHas t "zine" then "Zine"
  else if strHas t "collage" then "Workshop"
  else if strHas t "block print" || strHas t "linocut" || strHas t "print" then "Workshop"
  else if strHas t "watercolor" || strHas t "paint" then "Workshop"
  else "Workshop"

/-- `scrape_minna.guess_category`: keyword precedence with fallback
`"111 Minna"`. -/
def minnaGuessCategory (title : String) : String :=
  let t := pyLower title
  if strHas t "sketch" || strHas t "draw" then
    if strHas t "figure" then "Figure Drawing"
    else if strHas t "drink" then "Drink & Draw"
    else "Drawing"
  else if strHas t "opening" || strHas t "reception" then "Opening"
  else if strHas t "exhibit" || strHas t "exhibition" then "Exhibition"
  else if strHas t "dj" || strHas t "music" then "Music"
  else "111 Minna"

/-! ## Dedupe and strip lemmas -/

theorem mem_of_mem_dedupeGo {r : Row} :
    ∀ {seen : List (List String)} {l : List Row}, r ∈ dedupeGo seen l → r ∈ l := by
  intro seen l
  induction l generalizing seen with
  | nil => simp [dedupeGo]
  | cons a as ih =>
    intro hm
    rw [dedupeGo] at hm
    split at hm
    · exact List.mem_cons_of_mem a (ih hm)
    · rcases List.mem_cons.mp hm with h | h
      · exact h ▸ List.mem_cons_self a as
      · exact List.mem_cons_of_mem a (ih h)

theorem key_notin_seen_of_mem_dedupeGo {r : Row} :
    ∀ {seen : List (List String)} {l : List Row}, r ∈ dedupeGo seen l → rowKey r ∉ seen := by
  intro seen l
  induction l generalizing seen with
  | nil => simp [dedupeGo]
  | cons a as ih =>
    intro hm
    rw [dedupeGo] at hm
    split at hm
    · exact ih hm
    · rcases List.mem_cons.mp hm with h | h
      · subst h; assumption
      · intro hk
        exact ih h (List.mem_cons_of_mem _ hk)

theorem dedupeGo_append (seen : List (List String)) (l m : List Row) :
    dedupeGo seen (l ++ m) = dedupeGo seen l ++ dedupeGo (addAll seen l) m := by
  induction l generalizing seen with
  | nil => simp [dedupeGo, addAll]
  | cons a as ih =>
    rw [List.cons_append, dedupeGo, dedupeGo, addAll]
    split
    · exact ih seen
    · rw [List.cons_append, ih]

theorem mem_addAll {k : List String} :
    ∀ {seen : List (List String)} {l : List Row},
      k ∈ addAll seen l ↔ k ∈ seen ∨ k ∈ l.map rowKey := by
  intro seen l
  induction l generalizing seen with
  | nil => simp [addAll]
  | cons a as ih =>
    rw [addAll]
    split
    next hmem =>
      rw [ih]
      simp only [List.map_cons, List.mem_cons]
      constructor
      · rintro (h | h)
        · exact Or.inl h
        · exact Or.inr (Or.inr h)
      · rintro (h | h | h)
        · exact Or.inl h
        · exact Or.inl (h ▸ hmem)
        · exact Or.inr h
    next =>
      rw [ih]
      simp only [List.map_cons, List.mem_cons]
      tauto

theorem dedupeGo_eq_nil {seen : List (List String)} {m : List Row}
    (h : ∀ r ∈ m, rowKey r ∈ seen) : dedupeGo seen m = [] := by
  induction m with
  | nil => rfl
  | cons a as ih =>
    rw [dedupeGo, if_pos (h a (List.mem_cons_self a as))]
    exact ih fun r hr => h r (List.mem_cons_of_mem a hr)

theorem dedupeGo_eq_self :
    ∀ {seen : List (List String)} {l : List Row},
      List.Pairwise (fun a b => rowKey a ≠ rowKey b) l →
      (∀ r ∈ l, rowKey r ∉ seen) → dedupeGo seen l = l := by
  intro seen l
  induction l generalizing seen with
  | nil => intro _ _; rfl
  | cons a as ih =>
    intro hp hs
    rw [dedupeGo, if_neg (hs a (List.mem_cons_self a as))]
    congr 1
    refine ih (List.Pairwise.of_cons hp) fun r hr => ?_
    intro hk
    rcases List.mem_cons.mp hk with h' | h'
    · exact (List.pairwise_cons.mp hp).1 r hr h'.symm
    · exact hs r (List.mem_cons_of_mem a hr) h'

theorem pairwise_dedupeGo :
    ∀ (seen : List (List String)) (l : List Row),
      List.Pairwise (fun a b => rowKey a ≠ rowKey b) (dedupeGo seen l) := by
  intro seen l
  induction l generalizing seen with
  | nil => exact List.Pairwise.nil
  | cons a as ih =>
    rw [dedupeGo]
    split
    · exact ih seen
    · refine List.pairwise_cons.mpr ⟨?_, ih _⟩
      intro r hr hk
      exact key_notin_seen_of_mem_dedupeGo hr (hk ▸ List.mem_cons_self _ _)

theorem key_mem_dedupeGo_map :
    ∀ {seen : List (List String)} {l : List Row} {r : Row}, r ∈ l →
      rowKey r ∈ seen ∨ rowKey r ∈ (dedupeGo seen l).map rowKey := by
  intro seen l
  induction l generalizing seen with
  | nil => simp
  | cons a as ih =>
    intro r hr
    rw [dedupeGo]
    rcases List.mem_cons.mp hr with h | h
    · subst h
      split
      · exact Or.inl ‹_›
      · exact Or.inr (by simp)
    · split
      · exact ih h
      · rcases @ih (rowKey a :: seen) r h with h' | h'
        · rcases List.mem_cons.mp h' with h'' | h''
          · exact Or.inr (by simp [h''])
          · exact Or.inl h''
        · exact Or.inr (by simpa using Or.inr h')

theorem dropWhile_idem (p : Char → Bool) (l : List Char) :
    (l.dropWhile p).dropWhile p = l.dropWhile p := by
  induction l with
  | nil => rfl
  | cons c cs ih =>
    by_cases h : p c
    · simp [List.dropWhile_cons, h, ih]
    · simp [List.dropWhile_cons, h]

theorem getLast?_dropWhile (p : Char → Bool) (l : List Char) :
    l.dropWhile p = [] ∨ (l.dropWhile p).getLast? = l.getLast? := by
  induction l with
  | nil => exact Or.inl rfl
  | cons c cs ih =>
    by_cases h : p c
    · rw [List.dropWhile_cons, if_pos h]
      cases cs with
      | nil => exact Or.inl rfl
      | cons d ds =>
        rcases ih with h' | h'
        · exact Or.inl h'
        · exact Or.inr (h'.trans (List.getLast?_cons_cons).symm)
  -- when the head survives, nothing is dropped
    · rw [List.dropWhile_cons, if_neg h]
      exact Or.inr rfl

theorem head?_dropWhile (p : Char → Bool) (l : List Char) :
    ∀ c, (l.dropWhile p).head? = some c → p c = false := by
  induction l with
  | nil => intro c h; simp at h
  | cons a as ih =>
    intro c h
    by_cases ha : p a
    · rw [List.dropWhile_cons, if_pos ha] at h
      exact ih c h
    · rw [List.dropWhile_cons, if_neg ha] at h
      simp only [List.head?_cons, Option.some.injEq] at h
      subst h
      exact Bool.eq_false_iff.mpr ha

theorem dropWhile_of_head?_false {p : Char → Bool} {l : List Char}
    (h : ∀ c, l.head? = some c → p c = false) : l.dropWhile p = l := by
  cases l with
  | nil => rfl
  | cons c cs =>
    rw [List.dropWhile_cons, if_neg]
    exact fun hc => by simpa [hc] using h c rfl

theorem pyStrip_idem (s : String) : pyStrip (pyStrip s) = pyStrip s := by
  rcases s with ⟨l⟩
  show String.mk _ = String.mk _
  simp only [pyStrip]
  set p := pyIsSpace
  set A := l.dropWhile p with hA
  set X := (A.reverse.dropWhile p).reverse with hX
  have hXdrop : X.dropWhile p = X := by
    rcases getLast?_dropWhile p A.reverse with h | h
    · rw [hX, h]; rfl
    · refine dropWhile_of_head?_false ?_
      intro c hc
      rw [hX, List.head?_reverse, h, List.getLast?_reverse] at hc
      exact head?_dropWhile p l c (hA ▸ hc)
  rw [hXdrop, hX, List.reverse_reverse, dropWhile_idem]

theorem readNormalize_idem (r : Row) : readNormalize (readNormalize r) = readNormalize r := by
  simp [readNormalize, pyStrip_idem]

theorem mem_readCsv_normalized {r : Row} {f : Option (List Row)} (h : r ∈ readCsv f) :
    readNormalize r = r := by
  cases f with
  | none => simp [readCsv] at h
  | some rows =>
    rcases List.mem_map.mp (by simpa [readCsv] using h) with ⟨r₀, _, hr₀⟩
    rw [← hr₀, readNormalize_idem]

/-! ## Claim C2: merge idempotence -/

theorem mergeTables_idem (base auto : List Row)
    (h : ∀ r ∈ auto, isSketchboardAuto r = false) :
    mergeTables (mergeTables base auto) auto = mergeTables base auto := by
  set cleaned := base.filter (fun r => !isSketchboardAuto r) with hcleaned
  set D := mergeDedupe (cleaned ++ auto) with hD
  have hperm : List.Perm (mergeTables base auto) D := List.perm_insertionSort rowLe D
  have hMuntagged : ∀ r ∈ mergeTables base auto, isSketchboardAuto r = false := by
    intro r hr
    have hrD : r ∈ D := hperm.mem_iff.mp hr
    rcases List.mem_append.mp (mem_of_mem_dedupeGo hrD) with hc | ha
    · simpa using (List.mem_filter.mp hc).2
    · exact h r ha
  have hfilterM :
      (mergeTables base auto).filter (fun r => !isSketchboardAuto r) = mergeTables base auto :=
    List.filter_eq_self.mpr fun r hr => by simp [hMuntagged r hr]
  have hdistinctM :
      List.Pairwise (fun a b => rowKey a ≠ rowKey b) (mergeTables base auto) :=
    (hperm.pairwise_iff fun hab => Ne.symm hab).mpr (pairwise_dedupeGo [] _)
  have hcover : ∀ r ∈ auto, rowKey r ∈ (mergeTables base auto).map rowKey := by
    intro r hr
    have h₁ : rowKey r ∈ ([] : List (List String)) ∨ rowKey r ∈ D.map rowKey :=
      key_mem_dedupeGo_map (List.mem_append_right cleaned hr)
    exact (hperm.map rowKey).mem_iff.mpr (h₁.resolve_left (by simp))
  have hdedup : mergeDedupe (mergeTables base auto ++ auto) = mergeTables base auto := by
    rw [mergeDedupe, dedupeGo_append, dedupeGo_eq_self hdistinctM (by simp),
      dedupeGo_eq_nil fun r hr => mem_addAll.mpr (Or.inr (hcover r hr)), List.append_nil]
  calc mergeTables (mergeTables base auto) auto
      = sortRows (mergeDedupe (mergeTables base auto ++ auto)) := by
        rw [mergeTables, hfilterM]
    _ = sortRows (mergeTables base auto) := by rw [hdedup]
    _ = mergeTables base auto :=
        List.Sorted.insertionSort_eq (List.sorted_insertionSort rowLe D)

/-- **C2.** Merging the same unchanged source batch twice in a row is
idempotent: with the batch as the fetchers actually produce it (its rows carry
no `"auto-imported: sketchboard"` tag in `notes`), the second merge returns a
row list equal to the first — same rows, same order — and hence the
deterministic CSV writer emits byte-identical files. -/
theorem merge_twice_eq_merge_once (baseFile autoFile : Option (List Row))
    (h : ∀ r ∈ readCsv autoFile, isSketchboardAuto r = false) :
    mergeMain (some (mergeMain baseFile autoFile)) autoFile = mergeMain baseFile autoFile := by
  have hnorm : readCsv (some (mergeMain baseFile autoFile)) = mergeMain baseFile autoFile := by
    show (mergeMain baseFile autoFile).map readNormalize = mergeMain baseFile autoFile
    have hmem : ∀ r ∈ mergeMain baseFile autoFile, readNormalize r = r := by
      intro r hr
      have hrD : r ∈ mergeDedupe ((readCsv baseFile).filter (fun x => !isSketchboardAuto x)
          ++ readCsv autoFile) := (List.perm_insertionSort rowLe _).mem_iff.mp hr
      rcases List.mem_append.mp (mem_of_mem_dedupeGo hrD) with hc | ha
      · exact mem_readCsv_normalized (List.mem_of_mem_filter hc)
      · exact mem_readCsv_normalized ha
    calc (mergeMain baseFile autoFile).map readNormalize
        = (mergeMain baseFile autoFile).map id := List.map_congr_left hmem
      _ = mergeMain baseFile autoFile := List.map_id _
  show mergeTables (readCsv (some (mergeMain baseFile autoFile))) (readCsv autoFile)
      = mergeMain baseFile autoFile
  rw [hnorm]
  exact mergeTables_idem (readCsv baseFile) (readCsv autoFile) h

/-- Witness for C2 at a concrete master file and batch file. -/
theorem merge_twice_eq_merge_once_witness :
    (∀ r ∈ readCsv (some [sketchboardRow "2026-02-17" "Madrone" "Drink and Draw" "Drink & Draw"
        "18:30" "20:30" "$15" "https://s.co/e1" "https://s.co/a"]), isSketchboardAuto r = false) ∧
      mergeMain (some (mergeMain (some [sketchboardRow "2026-01-05" "V" "Old" "Cat" "" "" "" "" ""])
          (some [sketchboardRow "2026-02-17" "Madrone" "Drink and Draw" "Drink & Draw"
            "18:30" "20:30" "$15" "https://s.co/e1" "https://s.co/a"])))
        (some [sketchboardRow "2026-02-17" "Madrone" "Drink and Draw" "Drink & Draw"
          "18:30" "20:30" "$15" "https://s.co/e1" "https://s.co/a"]) =
      mergeMain (some [sketchboardRow "2026-01-05" "V" "Old" "Cat" "" "" "" "" ""])
        (some [sketchboardRow "2026-02-17" "Madrone" "Drink and Draw" "Drink & Draw"
          "18:30" "20:30" "$15" "https://s.co/e1" "https://s.co/a"]) :=
  ⟨by decide, merge_twice_eq_merge_once _ _ (by decide)⟩

/-! ## Calendar lemmas -/

theorem daysInMonth_bounds (y m : Nat) : 28 ≤ daysInMonth y m ∧ daysInMonth y m ≤ 31 := by
  unfold daysInMonth
  split_ifs <;> omega

theorem daysBeforeMonth_succ (y : Nat) {m : Nat} (h1 : 1 ≤ m) (h2 : m ≤ 11) :
    daysBeforeMonth y (m + 1) = daysBeforeMonth y m + daysInMonth y m := by
  interval_cases m <;> by_cases hL : isLeap y = true <;>
    simp [daysBeforeMonth, daysInMonth, hL]

set_option maxHeartbeats 2000000 in
theorem daysBeforeYear_succ {y : Nat} (h : 1 ≤ y) :
    daysBeforeYear (y + 1) =
      daysBeforeYear y + 365 + (if isLeap y = true then 1 else 0) := by
  have hiff : isLeap y = true ↔ ((y % 4 = 0 ∧ y % 100 ≠ 0) ∨ y % 400 = 0) := by
    unfold isLeap
    simp [Bool.or_eq_true, Bool.and_eq_true, beq_iff_eq, bne_iff_ne]
  by_cases hL : isLeap y = true
  · rw [if_pos hL]
    rw [hiff] at hL
    unfold daysBeforeYear
    simp only [Nat.add_sub_cancel]
    omega
  · rw [if_neg hL]
    rw [hiff] at hL
    unfold daysBeforeYear
    simp only [Nat.add_sub_cancel]
    omega

theorem succDay_valid {d : Date} (hv : d.Valid) : (succDay d).Valid := by
  obtain ⟨hy, hm1, hm2, hd1, hd2⟩ := hv
  have h1 := (daysInMonth_bounds d.year (d.month + 1)).1
  have h2 := (daysInMonth_bounds (d.year + 1) 1).1
  unfold succDay Date.Valid
  split_ifs with ha hb <;> dsimp only <;> omega

theorem toOrdinal_succDay {d : Date} (hv : d.Valid) : toOrdinal (succDay d) = toOrdinal d + 1 := by
  obtain ⟨hy, hm1, hm2, hd1, hd2⟩ := hv
  unfold succDay
  split_ifs with ha hb
  · unfold toOrdinal
    dsimp only
    omega
  · have hstep := daysBeforeMonth_succ d.year hm1 (by omega)
    unfold toOrdinal
    dsimp only
    omega
  · have h12 : d.month = 12 := by omega
    have hys := daysBeforeYear_succ hy
    have hdim : daysInMonth d.year d.month = 31 := by
      rw [h12]
      unfold daysInMonth
      norm_num
    unfold toOrdinal
    dsimp only
    rw [h12]
    have hb1 : daysBeforeMonth (d.year + 1) 1 = 0 := rfl
    have hb12 : daysBeforeMonth d.year 12 =
        334 + (if 2 < 12 ∧ isLeap d.year = true then 1 else 0) := rfl
    rw [hb1, hb12]
    by_cases hL : isLeap d.year = true <;> simp [hL] at hys ⊢ <;> omega

theorem addDays_spec {d : Date} (hv : d.Valid) (k : Nat) :
    (addDays d k).Valid ∧ toOrdinal (addDays d k) = toOrdinal d + k := by
  induction k generalizing d with
  | zero => exact ⟨hv, rfl⟩
  | succ k ih =>
    have hsv := succDay_valid hv
    have hrec := ih hsv
    refine ⟨hrec.1, ?_⟩
    rw [show addDays d (k + 1) = addDays (succDay d) k from rfl, hrec.2,
      toOrdinal_succDay hv]
    omega

theorem addDays_within {y m : Nat} :
    ∀ (k day : Nat), day + k ≤ daysInMonth y m →
      addDays ⟨y, m, day⟩ k = ⟨y, m, day + k⟩ := by
  intro k
  induction k with
  | zero => intro day _; rfl
  | succ k ih =>
    intro day h
    have hlt : day < daysInMonth y m := by omega
    show addDays (succDay ⟨y, m, day⟩) k = _
    rw [show succDay ⟨y, m, day⟩ = ⟨y, m, day + 1⟩ from by
      unfold succDay; rw [if_pos hlt]]
    rw [ih (day + 1) (by omega)]
    exact congrArg (Date.mk y m) (by omega)

theorem addDays_add (d : Date) (i j : Nat) : addDays d (i + j) = addDays (addDays d i) j := by
  induction i generalizing d with
  | zero => rw [Nat.zero_add]; rfl
  | succ i ih =>
    rw [show i + 1 + j = (i + j) + 1 from by omega]
    show addDays (succDay d) (i + j) = addDays (addDays (succDay d) i) j
    exact ih (succDay d)

theorem addDays_cross {y m : Nat} (day k : Nat) (hm : m ≤ 12)
    (h1 : day ≤ daysInMonth y m) (h2 : daysInMonth y m < day + k)
    (h3 : day + k ≤ daysInMonth y m + 28) :
    addDays ⟨y, m, day⟩ k =
      ⟨if m = 12 then y + 1 else y, if m = 12 then 1 else m + 1,
        day + k - daysInMonth y m⟩ := by
  have hb := daysInMonth_bounds y m
  have hbn := daysInMonth_bounds (if m = 12 then y + 1 else y) (if m = 12 then 1 else m + 1)
  rw [show k = (daysInMonth y m - day) + (1 + (day + k - daysInMonth y m - 1)) from by omega,
    addDays_add, addDays_within _ day (by omega)]
  rw [show day + (daysInMonth y m - day) = daysInMonth y m from by omega]
  rw [show (1 : Nat) + (day + k - daysInMonth y m - 1)
      = (day + k - daysInMonth y m - 1) + 1 from by omega]
  show addDays (succDay ⟨y, m, daysInMonth y m⟩) (day + k - daysInMonth y m - 1) = _
  have hsucc : succDay ⟨y, m, daysInMonth y m⟩ =
      ⟨if m = 12 then y + 1 else y, if m = 12 then 1 else m + 1, 1⟩ := by
    unfold succDay
    dsimp only
    rw [if_neg (by omega : ¬ daysInMonth y m < daysInMonth y m)]
    by_cases h12 : m = 12
    · rw [if_neg (by omega), if_pos h12, if_pos h12]
    · rw [if_pos (by omega), if_neg h12, if_neg h12]
  rw [hsucc, addDays_within _ 1 (by omega)]
  exact congrArg (Date.mk _ _) (by omega)

theorem emod_offset (w t : Nat) (hw : w < 7) (ht : t < 7) :
    (((t : Int) - (w : Int)) % 7).toNat < 7 ∧
      (w + (((t : Int) - (w : Int)) % 7).toNat) % 7 = t := by
  have h0 : (0 : Int) ≤ ((t : Int) - w) % 7 := Int.emod_nonneg _ (by norm_num)
  have h7 : ((t : Int) - w) % 7 < 7 := Int.emod_lt_of_pos _ (by norm_num)
  have hd : ((t : Int) - w) % 7 = ((t : Int) - w) - 7 * (((t : Int) - w) / 7) :=
    Int.emod_def _ _
  omega

/-! ## Claim C8: the nth weekday of a month -/

theorem nthWeekdayOfMonth_spec {y m wd n : Nat} (hy : 1 ≤ y) (hm1 : 1 ≤ m) (hm2 : m ≤ 12)
    (hwd : wd < 7) (hn1 : 1 ≤ n) (hn2 : n ≤ 5) (dte : Date) :
    nthWeekdayOfMonth y m wd n = some dte ↔
      (dte.Valid ∧ dte.year = y ∧ dte.month = m ∧ pyWeekday dte = wd ∧
        7 * (n - 1) < dte.day ∧ dte.day ≤ 7 * n) := by
  have hdimb := daysInMonth_bounds y m
  have hw1 : pyWeekday ⟨y, m, 1⟩ < 7 := Nat.mod_lt _ (by norm_num)
  have hoff := emod_offset (pyWeekday ⟨y, m, 1⟩) wd hw1 hwd
  set δ := (((wd : Int) - (pyWeekday ⟨y, m, 1⟩ : Int)) % 7).toNat with hδdef
  have hfw : nextWeekdayOnOrAfter ⟨y, m, 1⟩ wd = ⟨y, m, 1 + δ⟩ := by
    unfold nextWeekdayOnOrAfter
    rw [← hδdef]
    exact addDays_within δ 1 (by omega)
  unfold nthWeekdayOfMonth
  rw [hfw]
  by_cases hc : 1 + δ + 7 * (n - 1) ≤ daysInMonth y m
  · rw [addDays_within (7 * (n - 1)) (1 + δ) (by omega)]
    dsimp only
    rw [if_neg (by simp)]
    have hcand_wk : pyWeekday ⟨y, m, 1 + δ + 7 * (n - 1)⟩ = wd := by
      unfold pyWeekday toOrdinal at hoff ⊢
      dsimp only at hoff ⊢
      omega
    constructor
    · intro h
      simp only [Option.some.injEq] at h
      subst h
      refine ⟨⟨hy, hm1, hm2, ?_, ?_⟩, rfl, rfl, hcand_wk, ?_, ?_⟩ <;> dsimp only <;> omega
    · rintro ⟨⟨v1, v2, v3, v4, v5⟩, hyy, hmm', hwk, hr1, hr2⟩
      obtain ⟨dy, dm, dd⟩ := dte
      dsimp only at hyy hmm' hwk hr1 hr2 v4 v5
      subst hyy hmm'
      have hdd : dd = 1 + δ + 7 * (n - 1) := by
        unfold pyWeekday toOrdinal at hwk hcand_wk
        dsimp only at hwk hcand_wk
        omega
      rw [hdd]
  · have hcross := addDays_cross (y := y) (m := m) (1 + δ) (7 * (n - 1)) hm2
      (by omega) (by omega) (by omega)
    rw [hcross]
    dsimp only
    rw [if_pos (by split_ifs <;> omega)]
    constructor
    · intro h
      simp at h
    · rintro ⟨⟨v1, v2, v3, v4, v5⟩, hyy, hmm', hwk, hr1, hr2⟩
      exfalso
      obtain ⟨dy, dm, dd⟩ := dte
      dsimp only at hyy hmm' hwk hr1 hr2 v4 v5
      subst hyy hmm'
      unfold pyWeekday toOrdinal at hwk hoff
      dsimp only at hwk hoff
      omega

theorem expandOrdinalMonths_mem {n wd : Nat} {ws we : Date}
    (hwd : wd < 7) (hn1 : 1 ≤ n) (hn2 : n ≤ 5) :
    ∀ (fuel y m : Nat), 1 ≤ y → 1 ≤ m → m ≤ 12 →
      ∀ dte ∈ expandOrdinalMonths n wd ws we y m fuel,
        dateLe ws dte ∧ dateLt dte we ∧
          nthWeekdayOfMonth dte.year dte.month wd n = some dte := by
  intro fuel
  induction fuel with
  | zero =>
    intro y m _ _ _ dte h
    simp [expandOrdinalMonths] at h
  | succ fuel ih =>
    intro y m hy hm1 hm2 dte hmem
    rw [expandOrdinalMonths] at hmem
    split at hmem
    · rcases List.mem_append.mp hmem with hb | hr
      · cases hnth : nthWeekdayOfMonth y m wd n with
        | none => rw [hnth] at hb; simp at hb
        | some cand =>
          rw [hnth] at hb
          dsimp only at hb
          split at hb
          · next hguard =>
            have hsing : dte = cand := by simpa using hb
            subst hsing
            have hprops := (nthWeekdayOfMonth_spec hy hm1 hm2 hwd hn1 hn2 dte).mp hnth
            refine ⟨hguard.1, hguard.2, ?_⟩
            rw [hprops.2.1, hprops.2.2.1]
            exact hnth
          · simp at hb
      · split at hr
        · exact ih (y + 1) 1 (by omega) (by omega) (by omega) dte hr
        · next hne => exact ih y (m + 1) hy (by omega) (by omega) dte hr
    · simp at hmem

/-- **C8.** For the ordinal-weekday monthly rule: `nth_weekday_of_month`
returns `some d` exactly when `d` is the (unique) nth occurrence of the
weekday in that month — the first occurrence on or after day 1 plus `7*(n-1)`
days, re-validated to lie in the target month — and returns `none` (for every
`d`, equivalently) when that occurrence does not exist.  The month loop of the
ordinal branch is total, and every date it emits lies in the window and is the
nth weekday of its own month; a month whose nth occurrence is missing
therefore contributes nothing, with no error raised. -/
theorem ordinal_weekday_monthly_rule (wd n : Nat) (hwd : wd < 7) (hn1 : 1 ≤ n) (hn2 : n ≤ 5) :
    (∀ y m, 1 ≤ y → 1 ≤ m → m ≤ 12 → ∀ dte : Date,
        nthWeekdayOfMonth y m wd n = some dte ↔
          (dte.Valid ∧ dte.year = y ∧ dte.month = m ∧ pyWeekday dte = wd ∧
            7 * (n - 1) < dte.day ∧ dte.day ≤ 7 * n)) ∧
    (∀ ws we : Date, 1 ≤ ws.year → 1 ≤ ws.month → ws.month ≤ 12 →
        ∀ dte ∈ expandOrdinal n wd ws we,
          dateLe ws dte ∧ dateLt dte we ∧
            nthWeekdayOfMonth dte.year dte.month wd n = some dte) :=
  ⟨fun _ _ hy h1 h2 dte => nthWeekdayOfMonth_spec hy h1 h2 hwd hn1 hn2 dte,
   fun ws _ h1 h2 h3 => expandOrdinalMonths_mem hwd hn1 hn2 _ ws.year ws.month h1 h2 h3⟩

set_option maxRecDepth 8000 in
/-- Witness for C8: the 2nd Wednesday of January 2024 is January 10. -/
theorem ordinal_weekday_monthly_rule_witness :
    ((2 : Nat) < 7 ∧ (1 : Nat) ≤ 2 ∧ (2 : Nat) ≤ 5) ∧
      nthWeekdayOfMonth 2024 1 2 2 = some ⟨2024, 1, 10⟩ :=
  ⟨by decide,
   ((ordinal_weekday_monthly_rule 2 2 (by decide) (by decide) (by decide)).1 2024 1
      (by decide) (by decide) (by decide) ⟨2024, 1, 10⟩).mpr (by decide)⟩

/-! ## Claim C9: "every other" rules expand to nothing -/

theorem listStarts_append_left {p q l : List Char}
    (h : listStarts (p ++ q) l = true) : listStarts p l = true := by
  induction p generalizing l with
  | nil => rfl
  | cons a as ih =>
    cases l with
    | nil => simp [listStarts] at h
    | cons b bs =>
      rw [List.cons_append, listStarts, Bool.and_eq_true] at h
      rw [listStarts, Bool.and_eq_true]
      exact ⟨h.1, ih h.2⟩

theorem listHas_append_left {p q l : List Char}
    (h : listHas (p ++ q) l = true) : listHas p l = true := by
  induction l with
  | nil =>
    rw [listHas] at h ⊢
    cases p with
    | nil => rfl
    | cons a as => simp [listStarts] at h
  | cons c cs ih =>
    rw [listHas, Bool.or_eq_true] at h ⊢
    rcases h with h | h
    · exact Or.inl (listStarts_append_left h)
    · exact Or.inr (ih h)

/-- **C9.** A rule whose (stripped, lowercased) text contains
`"every other <weekday>"` expands to the empty date list: the expander's first
test returns `[]` on the substring `"every other"` without guessing a phase,
and — being a total function — without raising an error. -/
theorem every_other_rule_expands_empty (rule : String) (ws we : Date)
    (h : ∃ p ∈ wdTable, listHas ("every other ".data ++ p.1) (pyLower (pyStrip rule)).data = true) :
    expandRuleToDates rule ws we = [] := by
  obtain ⟨p, _, hp⟩ := h
  have h1 : listHas "every other ".data (pyLower (pyStrip rule)).data = true :=
    listHas_append_left hp
  have h2 : listHas "every other".data (pyLower (pyStrip rule)).data = true := by
    have hsp : "every other ".data = "every other".data ++ [' '] := rfl
    rw [hsp] at h1
    exact listHas_append_left h1
  unfold expandRuleToDates
  simp [h2]

/-- Witness for C9 on the literal rule text reported by the source page. -/
theorem every_other_rule_expands_empty_witness :
    (∃ p ∈ wdTable, listHas ("every other ".data ++ p.1)
        (pyLower (pyStrip "Every other Wednesday, 7-9pm")).data = true) ∧
      expandRuleToDates "Every other Wednesday, 7-9pm" ⟨2024, 1, 1⟩ ⟨2024, 4, 1⟩ = [] :=
  ⟨by decide, every_other_rule_expands_empty _ _ _ (by decide)⟩

/-! ## Digit-rendering lemmas -/

theorem digitOf_isDigit {k : Nat} (h : k < 10) : (digitOf k).isDigit = true := by
  interval_cases k <;> decide

theorem digitOf_toNat {k : Nat} (h : k < 10) : (digitOf k).toNat = 48 + k := by
  interval_cases k <;> decide

theorem digitOf_not_space {k : Nat} (h : k < 10) : pyIsSpace (digitOf k) = false := by
  interval_cases k <;> decide

theorem splitWsAux_nonws :
    ∀ (l : List Char), (∀ c ∈ l, pyIsSpace c = false) → ∀ acc : List Char,
      splitWsAux acc l = if acc.isEmpty ∧ l.isEmpty then [] else [acc.reverse ++ l] := by
  intro l
  induction l with
  | nil => intro _ acc; cases acc <;> simp [splitWsAux]
  | cons c cs ih =>
    intro h acc
    have hc : pyIsSpace c = false := h c (List.mem_cons_self c cs)
    rw [splitWsAux, if_neg (by simp [hc])]
    rw [ih (fun x hx => h x (List.mem_cons_of_mem c hx)) (c :: acc)]
    simp

theorem normSpace_eq_self {s : String} (h : ∀ c ∈ s.data, pyIsSpace c = false) :
    normSpace s = s := by
  rcases s with ⟨l⟩
  unfold normSpace
  rw [splitWsAux_nonws _ h []]
  cases l with
  | nil => rfl
  | cons c cs => simp [joinWords]

theorem normalizeIso_no_ws {y m d : Nat} :
    ∀ c ∈ (normalizeIso y m d).data, pyIsSpace c = false := by
  intro c hc
  simp only [normalizeIso, pad4, pad2, List.cons_append, List.nil_append,
    List.mem_cons, List.not_mem_nil, or_false] at hc
  rcases hc with h | h | h | h | h | h | h | h | h | h <;> subst h <;>
    first
      | decide
      | exact digitOf_not_space (Nat.mod_lt _ (by norm_num))

/-! ## Claim C4: ISO round trip -/

theorem iso_scan_of_normalizeIso {y m d : Nat} (h1 : 2000 ≤ y) (h2 : y ≤ 2099)
    (hm : m ≤ 99) (hd : d ≤ 99) :
    scanIso none (normalizeIso y m d).data = some (y, m, d) := by
  have hy1000 : y / 1000 % 10 = 2 := by omega
  have hy100 : y / 100 % 10 = 0 := by omega
  have d3 := digitOf_isDigit (show y / 10 % 10 < 10 from Nat.mod_lt _ (by norm_num))
  have d4 := digitOf_isDigit (show y % 10 < 10 from Nat.mod_lt _ (by norm_num))
  have dm1 := digitOf_isDigit (show m / 10 % 10 < 10 from Nat.mod_lt _ (by norm_num))
  have dm2 := digitOf_isDigit (show m % 10 < 10 from Nat.mod_lt _ (by norm_num))
  have dd1 := digitOf_isDigit (show d / 10 % 10 < 10 from Nat.mod_lt _ (by norm_num))
  have dd2 := digitOf_isDigit (show d % 10 < 10 from Nat.mod_lt _ (by norm_num))
  have t3 := digitOf_toNat (show y / 10 % 10 < 10 from Nat.mod_lt _ (by norm_num))
  have t4 := digitOf_toNat (show y % 10 < 10 from Nat.mod_lt _ (by norm_num))
  have tm1 := digitOf_toNat (show m / 10 % 10 < 10 from Nat.mod_lt _ (by norm_num))
  have tm2 := digitOf_toNat (show m % 10 < 10 from Nat.mod_lt _ (by norm_num))
  have td1 := digitOf_toNat (show d / 10 % 10 < 10 from Nat.mod_lt _ (by norm_num))
  have td2 := digitOf_toNat (show d % 10 < 10 from Nat.mod_lt _ (by norm_num))
  have hmatch : matchIsoAt none (digitOf (y / 1000 % 10) :: digitOf (y / 100 % 10) ::
      digitOf (y / 10 % 10) :: digitOf (y % 10) :: '-' :: digitOf (m / 10 % 10) ::
      digitOf (m % 10) :: '-' :: digitOf (d / 10 % 10) :: digitOf (d % 10) :: []) =
      some (y, m, d) := by
    rw [matchIsoAt, hy1000, hy100]
    split_ifs with hb hcnd
    · rw [t3, t4, tm1, tm2, td1, td2]
      simp only [Option.some.injEq, Prod.mk.injEq]
      refine ⟨by omega, by omega, by omega⟩
    · exfalso
      apply hcnd
      simp only [d3, d4, dm1, dm2, dd1, dd2]
      decide
    · exact absurd rfl hb
  show scanIso none (pad4 y ++ '-' :: pad2 m ++ '-' :: pad2 d) = _
  simp only [pad4, pad2, List.cons_append, List.nil_append]
  rw [scanIso, hmatch]

set_option maxRecDepth 8000 in
/-- C4 counterexample: `"1999-05-04"` is a valid ISO date string, but the ISO
grammar of `parse_date_any` only accepts years `20xx`, and no later grammar
matches an all-digit text, so extraction returns `""`, not the input. -/
theorem iso_roundtrip_fails_pre2000 :
    parseDateAny ⟨2026, 1, 15⟩ "1999-05-04" = "" ∧
      parseDateAny ⟨2026, 1, 15⟩ "1999-05-04" ≠ "1999-05-04" := by
  decide

/-- **C4 (amended).** For valid ISO date strings whose year lies in 2000–2099
(the range the extractor's `20\d{2}` grammar accepts), extraction is the
identity: the ISO grammar is tried first and reproduces its input exactly. -/
theorem iso_roundtrip_2000s (today : Date) (y m d : Nat) (h1 : 2000 ≤ y) (h2 : y ≤ 2099)
    (hm1 : 1 ≤ m) (hm2 : m ≤ 12) (hd1 : 1 ≤ d) (hd2 : d ≤ 31) :
    parseDateAny today (normalizeIso y m d) = normalizeIso y m d := by
  simp only [parseDateAny, normSpace_eq_self normalizeIso_no_ws,
    iso_scan_of_normalizeIso h1 h2 (show m ≤ 99 by omega) (show d ≤ 99 by omega)]

set_option maxRecDepth 8000 in
/-- Witness for C4 at `2026-02-17`. -/
theorem iso_roundtrip_2000s_witness :
    ((2000 ≤ 2026 ∧ 2026 ≤ 2099 ∧ 1 ≤ 2 ∧ 2 ≤ 12 ∧ 1 ≤ 17 ∧ 17 ≤ 31) ∧
      parseDateAny ⟨2026, 1, 15⟩ (normalizeIso 2026 2 17) = normalizeIso 2026 2 17) ∧
      normalizeIso 2026 2 17 = "2026-02-17" :=
  ⟨⟨by decide, iso_roundtrip_2000s ⟨2026, 1, 15⟩ 2026 2 17 (by decide) (by decide)
      (by decide) (by decide) (by decide) (by decide)⟩, by decide⟩

/-! ## Claim C3: year inference horizons -/

set_option maxRecDepth 8000 in
/-- C3 counterexample: with today = 2026-06-15, the text "Jan 10" has a
current-year interpretation only 156 days in the past — within the claimed
270-day horizon, so the claim requires the current year 2026 — yet
`scrape_case.to_iso_date` (which uses a 7-day horizon) returns `2027-01-10`. -/
theorem case_extractor_breaks_270_day_horizon :
    caseToIsoDate "Jan" 10 ⟨2026, 6, 15⟩ = some "2027-01-10" ∧
      (toOrdinal ⟨2026, 6, 15⟩ : Int) - (toOrdinal ⟨2026, 1, 10⟩ : Int) = 156 := by
  decide

/-- **C3 (amended).** The three extractors use three different past-horizon
rules for year-less dates: `fetch_sketchboard_drinkdraw.parse_date_any` rolls
forward one year exactly when the current-year date lies strictly more than
270 days in the past (boundary: exactly 270 keeps the current year);
`scrape_case.to_iso_date` rolls forward exactly when it lies strictly more
than 7 days in the past; `scrape_arch._infer_year` ignores day distances and
rolls forward exactly when the month is more than two months behind the
current month. -/
theorem year_inference_horizons :
    (∀ (today : Date) (mm dd : Nat),
        (inferYearRollForward today mm dd = today.year ∨
          inferYearRollForward today mm dd = today.year + 1) ∧
        (inferYearRollForward today mm dd = today.year + 1 ↔
          (toOrdinal ⟨today.year, mm, dd⟩ : Int) + 270 < (toOrdinal today : Int))) ∧
    (∀ (today : Date) (mon : String) (day m : Nat),
        assocLookup caseMonths ((pyLower mon).data.take 3) = some m →
        caseToIsoDate mon day today =
          some (isoFormat ⟨(if (toOrdinal ⟨today.year, m, day⟩ : Int) + 7 <
              (toOrdinal today : Int) then today.year + 1 else today.year), m, day⟩)) ∧
    (∀ (today : Date) (month day : Nat), 1 ≤ month →
        (archInferYear month day today = today.year ∨
          archInferYear month day today = today.year + 1) ∧
        (archInferYear month day today = today.year + 1 ↔ month + 2 < today.month)) := by
  refine ⟨?_, ?_, ?_⟩
  · intro today mm dd
    unfold inferYearRollForward
    split_ifs with h
    · exact ⟨Or.inr rfl, by constructor <;> intro <;> omega⟩
    · exact ⟨Or.inl rfl, by constructor <;> intro <;> omega⟩
  · intro today mon day m hlook
    unfold caseToIsoDate
    rw [hlook]
    dsimp only
    have hiff : ((toOrdinal ⟨today.year, m, day⟩ : Int) < (toOrdinal today : Int) - 7) ↔
        ((toOrdinal ⟨today.year, m, day⟩ : Int) + 7 < (toOrdinal today : Int)) := by omega
    by_cases hcond : (toOrdinal ⟨today.year, m, day⟩ : Int) < (toOrdinal today : Int) - 7
    · rw [if_pos hcond, if_pos (hiff.mp hcond)]
    · rw [if_neg hcond, if_neg (fun hx => hcond (hiff.mpr hx))]
  · intro today month day hm
    unfold archInferYear
    split_ifs with h
    · exact ⟨Or.inr rfl, by constructor <;> intro <;> omega⟩
    · exact ⟨Or.inl rfl, by constructor <;> intro <;> omega⟩

set_option maxRecDepth 8000 in
/-- Witness for C3 via the `scrape_case` conjunct at a concrete lookup. -/
theorem year_inference_horizons_witness :
    assocLookup caseMonths ((pyLower "Feb").data.take 3) = some 2 ∧
      caseToIsoDate "Feb" 17 ⟨2026, 2, 1⟩ = some "2026-02-17" := by
  refine ⟨by decide, ?_⟩
  rw [year_inference_horizons.2.1 ⟨2026, 2, 1⟩ "Feb" 17 2 (by decide)]
  decide

/-! ## Claim C5: shared trailing meridiem in time ranges -/

set_option maxRecDepth 8000 in
/-- C5 counterexample: on the claim's own example text `"6:30–8:30pm"`
(en-dash range with one trailing meridiem), none of the three time-range
extractors yields `("18:30","20:30")` — all three report absent times
(`scrape_arch` requires an ASCII hyphen, `scrape_syzygy`'s pattern has only a
hyphen, and the sketchboard extractor has no shared-meridiem grammar at all). -/
theorem shared_meridiem_example_fails_everywhere :
    parseTimeRangeAny "6:30–8:30pm" = ("", "") ∧
      archParseTimeRange "6:30–8:30pm" = none ∧
      syzygyParseTimeRange "6:30–8:30pm" = ("", "") := by
  decide

set_option maxRecDepth 8000 in
/-- **C5 (amended).** With an ASCII-hyphen range, the arch and syzygy
extractors apply a single trailing meridiem to both ends
(`"6:30-8:30pm"` → 18:30/20:30) and report absent times when the end meridiem
cannot be determined; the sketchboard extractor never applies a shared
meridiem — it returns absent times for `"6:30-8:30pm"` — supporting only
explicit 24-hour ranges (returned verbatim) and double-meridiem 12-hour
ranges. -/
theorem shared_meridiem_per_extractor :
    archParseTimeRange "6:30-8:30pm" = some ("18:30", "20:30") ∧
      syzygyParseTimeRange "6:30-8:30pm" = ("18:30", "20:30") ∧
      parseTimeRangeAny "6:30-8:30pm" = ("", "") ∧
      archParseTimeRange "6:30-8:30" = none ∧
      syzygyParseTimeRange "6:30-8:30" = ("", "") ∧
      parseTimeRangeAny "6:30 PM – 8:30 PM" = ("18:30", "20:30") ∧
      parseTimeRangeAny "18:00–21:00" = ("18:00", "21:00") ∧
      archParseTimeRange "11am-1pm" = some ("11:00", "13:00") := by
  decide

/-! ## Claim C6: hour order under a shared trailing "pm" -/

set_option maxRecDepth 8000 in
/-- C6 counterexample: `"1-12pm"` has written hours 1 and 12, both in
`[1, 12]`, sharing a trailing `pm`, yet the extracted range is
`13:00`–`12:00`: the end hour 12 is smaller than the start hour 13. -/
theorem pm_range_end_hour_below_start :
    syzygyParseTimeRange "1-12pm" = ("13:00", "12:00") ∧
      hourOf (syzygyParseTimeRange "1-12pm").2 < hourOf (syzygyParseTimeRange "1-12pm").1 := by
  decide

theorem hourOf_hhmm (h m : Nat) (hh : h ≤ 99) : hourOf ⟨pad2 h ++ ':' :: pad2 m⟩ = h := by
  have d1 := digitOf_isDigit (show h / 10 % 10 < 10 from Nat.mod_lt _ (by norm_num))
  have d2 := digitOf_isDigit (show h % 10 < 10 from Nat.mod_lt _ (by norm_num))
  have t1 := digitOf_toNat (show h / 10 % 10 < 10 from Nat.mod_lt _ (by norm_num))
  have t2 := digitOf_toNat (show h % 10 < 10 from Nat.mod_lt _ (by norm_num))
  unfold hourOf pad2
  simp only [List.cons_append, List.nil_append, List.takeWhile_cons, d1, d2,
    show (':').isDigit = false from rfl, if_true, if_false, Bool.false_eq_true,
    digitsToNat, List.foldl]
  omega

/-- **C6 (amended).** Under the shared-`pm` rule, with written hours in
`[1, 12]`, the extracted 24-hour end hour is at least the start hour exactly
when the written start is 12 (noon start) or the written hours are ordered
and the end is not 12 — so `end.hour ≥ start.hour` can fail even for ordered
written hours when the end is a written 12. -/
theorem pm_shared_meridiem_order (sh sm eh em : Nat) (hs1 : 1 ≤ sh) (hs2 : sh ≤ 12)
    (he1 : 1 ≤ eh) (he2 : eh ≤ 12) :
    (hourOf (syzygyTo24Pair sh sm eh em "pm".data).1 ≤
        hourOf (syzygyTo24Pair sh sm eh em "pm".data).2 ↔
      (sh = 12 ∨ (sh ≤ eh ∧ eh ≠ 12))) := by
  unfold syzygyTo24Pair
  rw [if_pos (by decide)]
  dsimp only
  rw [hourOf_hhmm _ sm (by split_ifs <;> omega), hourOf_hhmm _ em (by split_ifs <;> omega)]
  split_ifs <;> omega

/-- Witness for C6 at the documented example `6:30–8:30pm`. -/
theorem pm_shared_meridiem_order_witness :
    ((1 ≤ 6 ∧ 6 ≤ 12 ∧ 1 ≤ 8 ∧ 8 ≤ 12) ∧
      hourOf (syzygyTo24Pair 6 30 8 30 "pm".data).1 ≤
        hourOf (syzygyTo24Pair 6 30 8 30 "pm".data).2) ∧
      syzygyTo24Pair 6 30 8 30 "pm".data = ("18:30", "20:30") :=
  ⟨⟨by decide, (pm_shared_meridiem_order 6 30 8 30 (by decide) (by decide) (by decide)
      (by decide)).mpr (by decide)⟩, by decide⟩

/-! ## Claim C7: classifier fallback -/

set_option maxRecDepth 8000 in
/-- C7 counterexample: `classify_event` returns `None` ("no category") for a
title matching neither bucket — the caller drops the block instead of
assigning a fallback label. -/
theorem classify_event_returns_none :
    classifyEvent "Watercolor Landscapes" "" = none := by
  decide

/-- **C7 (amended).** The `scrape_case` and `scrape_minna` classifiers always
return a label from their fixed taxonomies, with fallbacks `"Workshop"` and
`"111 Minna"`; the sketchboard `classify_event`, however, returns either one
of its two labels or `None` ("ignore"), and its caller discards the block on
`None` rather than using a fallback. -/
theorem classifier_taxonomy :
    (∀ title, caseGuessCategory title ∈ ["Figure Drawing", "Drink & Draw", "Zine", "Workshop"]) ∧
    (∀ title, minnaGuessCategory title ∈
      ["Figure Drawing", "Drink & Draw", "Drawing", "Opening", "Exhibition", "Music",
        "111 Minna"]) ∧
    (∀ title block, classifyEvent title block = none ∨
      (∃ venue price, classifyEvent title block = some ("Figure Drawing", venue, price) ∨
        classifyEvent title block = some ("Drink & Draw", venue, price))) := by
  refine ⟨?_, ?_, ?_⟩
  · intro title
    unfold caseGuessCategory
    dsimp only
    split_ifs <;> simp
  · intro title
    unfold minnaGuessCategory
    dsimp only
    split_ifs <;> simp
  · intro title block
    unfold classifyEvent
    dsimp only
    split_ifs
    · exact Or.inr ⟨_, _, Or.inl rfl⟩
    · exact Or.inr ⟨_, _, Or.inr rfl⟩
    · exact Or.inl rfl

/-! ## Claim C1: merge replacement of the source's prior contribution -/

/-- A row exactly as the Sketchboard fetcher persists it: the `notes` field the
fetcher writes is `"Auto-imported from https://www.sketchboard.co/schedule"`. -/
def c1PriorRow : Row := sketchboardRow "2026-02-17" "Sketchboard @ Madrone Art Bar" "Drink & Draw"
  "Drink & Draw" "18:30" "20:30" "$15 cash only (per Sketchboard schedule)"
  "https://www.sketchboard.co/schedule/drink-and-draw" "https://www.sketchboard.co/schedule"

/-- **C1.** The merge is supposed to delete the source's previously persisted
rows (`# Remove prior Sketchboard auto rows so updates replace cleanly`), but
its tag predicate looks for `"auto-imported: sketchboard"` while the fetcher
writes notes `"Auto-imported from <url>"` (and `fetch_sketchboard.py` writes
empty notes), so a previously persisted Sketchboard row is never tagged: merging
an empty batch over a master table holding one prior Sketchboard row returns
that row unchanged instead of the claimed zero rows from that source. -/
theorem merge_does_not_replace_prior_sketchboard_rows :
    isSketchboardAuto c1PriorRow = false ∧
      mergeMain (some [c1PriorRow]) (some []) = [c1PriorRow] := by
  decide

/-! ## Claim C10: merging against a missing master table -/

/-- **C10.** Reading a missing master-table file yields the empty record list
(`read_csv` returns `[]` when the path does not exist), and the merge of any
incoming batch against the missing master is exactly that batch deduplicated
and sorted. -/
theorem merge_with_missing_master_is_dedupe_sort :
    readCsv none = [] ∧
      ∀ autoFile : Option (List Row),
        mergeMain none autoFile = sortRows (mergeDedupe (readCsv autoFile)) :=
  ⟨rfl, fun _ => rfl⟩

end Artlinks
